import Mathlib

/-!
Verification of the atomic-swap swap-tracking core.

Shallow embedding of the Go sources of `athanorlabs/atomic-swap` that the
specification's claims are about:

* `protocol/swap/manager.go` — the swap Manager (ongoing/past maps,
  write-through persistence);
* `protocol/txsender` (ExternalSender) — the external transaction sender with
  its package-level sign timeout;
* `protocol/xmrmaker` (swapState) — the maker's recovery entry point
  (`newSwapStateFromOngoing`, `checkIfAlreadyClaimed`), the exit cleanup, and
  `lockFunds`.

Go pointer semantics matter for the defensive-copy claims, so the manager model
carries an explicit heap: `*Info` values live at `Ref` indices into
`ManagerState.heap`; returning a value copy is modelled by allocating a fresh
cell that the caller may later mutate.
-/

namespace AtomicSwap

/-- Stand-in for `types.Hash` (a 32-byte hash); only equality is used. -/
abbrev Hash := Nat

/-- Heap reference: index of an `Info` cell, modelling a Go `*Info`. -/
abbrev Ref := Nat

/-- Modelled from the spec: `types.Status` is defined in the `common/types`
package, which is not among the given sources.  The spec's state machines
(§4.5/§4.6) list the ongoing statuses and three terminal ones
(`CompletedSuccess`, `CompletedRefund`, `CompletedAbort`); "terminal statuses
are past". -/
inductive Status where
  | KeysExchanged
  | ExpectingETHLock
  | ETHLocked
  | ContractDeploying
  | ContractReady
  | XMRLocked
  | SweepingXMR
  | CompletedSuccess
  | CompletedRefund
  | CompletedAbort
  deriving DecidableEq, Repr, Inhabited

/-- Modelled from the spec: `Status.IsOngoing` (from `common/types`, not in the
sources) — the ongoing/past dichotomy on statuses; the three completed statuses
are past, all others ongoing. -/
def Status.IsOngoing : Status → Bool
  | .CompletedSuccess => false
  | .CompletedRefund => false
  | .CompletedAbort => false
  | _ => true

/-- Modelled from the spec: `swap.Info` (defined in `protocol/swap/types.go`,
not among the sources).  The spec (§3) lists its fields; the model keeps the
ones the manager code reads or writes (`OfferID`, `Status`, `EndTime`) and a
stand-in `payload` for the remaining swap parameters, so that distinct records
can differ in more than the tracked fields. -/
structure Info where
  offerID : Hash
  status : Status
  payload : Int
  endTime : Option Nat
  deriving DecidableEq, Repr, Inhabited

/-! ## Association lists

The Go code uses `map[types.Hash]*Info` / `map[types.Hash]struct{}`; we embed
maps as association lists with Go-map semantics (`insertA` overwrites,
`eraseA` deletes, `lookupA` finds the unique binding). -/

def lookupA {α : Type} (l : List (Nat × α)) (k : Nat) : Option α :=
  match l with
  | [] => none
  | (k', v) :: rest => if k' = k then some v else lookupA rest k

def insertA {α : Type} (l : List (Nat × α)) (k : Nat) (v : α) : List (Nat × α) :=
  match l with
  | [] => [(k, v)]
  | (k', v') :: rest => if k' = k then (k, v) :: rest else (k', v') :: insertA rest k v

def eraseA {α : Type} (l : List (Nat × α)) (k : Nat) : List (Nat × α) :=
  match l with
  | [] => []
  | (k', v') :: rest => if k' = k then eraseA rest k else (k', v') :: eraseA rest k

/-! ## Heap of `Info` cells -/

/-- Dereference a `*Info`: read the cell at `r` (default `Info` if dangling,
which well-formed states never are). -/
def heapGet (heap : List Info) (r : Ref) : Info := heap.getD r default

/-- Write through a `*Info`: overwrite the cell at `r`. -/
def heapSet (heap : List Info) (r : Ref) (v : Info) : List Info := heap.set r v

/-! ## The swap Manager (`protocol/swap/manager.go`)

`manager` holds `ongoing` and `past` maps from offer id to `*Info`, plus the
database.  The database stores serialized `Info` values keyed by offer id;
`db.PutSwap` can fail, which each operation threads through as a `putOk`
argument (the environment's behaviour on that call). -/

/-- Errors surfaced by the manager: `errNoSwapWithID` from `manager.go`, and a
persistence failure propagated from `db.PutSwap`. -/
inductive SwapErr where
  | errNoSwapWithID
  | errStorageFailed
  deriving DecidableEq, Repr

/-- State of `swap.manager` plus the heap of `Info` cells its `*Info` values
point into, and the database contents. -/
structure ManagerState where
  heap : List Info
  ongoing : List (Hash × Ref)
  past : List (Hash × Ref)
  db : List (Hash × Info)
  deriving DecidableEq, Repr

/-- Refs stored in the maps point at live heap cells. -/
def ManagerState.WF (m : ManagerState) : Prop :=
  (∀ p ∈ m.ongoing, p.2 < m.heap.length) ∧ (∀ p ∈ m.past, p.2 < m.heap.length)

instance (m : ManagerState) : Decidable m.WF := by
  unfold ManagerState.WF; infer_instance

/-- Function `manager.GetOngoingSwap` (manager.go:144-153): looks up `id` in the ongoing
map and returns the record by value (`return *s, nil`).  The value copy handed
to the caller is modelled as a freshly allocated cell, so that caller mutation
is a write to that fresh cell. -/
def GetOngoingSwap (m : ManagerState) (id : Hash) : Except SwapErr (Ref × ManagerState) :=
  match lookupA m.ongoing id with
  | none => .error .errNoSwapWithID
  | some r =>
    .ok (m.heap.length, { m with heap := m.heap ++ [heapGet m.heap r] })

/-- Function `manager.GetOngoingSwaps` (manager.go:156-168): copies every ongoing record
into a fresh `Info` (`sCopy := new(Info); *sCopy = *s`) and returns the fresh
pointers. -/
def GetOngoingSwaps (m : ManagerState) : List Ref × ManagerState :=
  let copies := m.ongoing.map (fun p => heapGet m.heap p.2)
  ((List.range m.ongoing.length).map (fun i => m.heap.length + i),
   { m with heap := m.heap ++ copies })

/-- Function `manager.CompleteOngoingSwap` (manager.go:171-187): requires
`info.OfferID` in the ongoing map; stamps `info.EndTime = &now` through the
caller's pointer `r`; inserts the pointer into `past`; deletes the ongoing
entry; and only then re-writes the record to the database (`db.PutSwap`),
whose success is `putOk`. -/
def CompleteOngoingSwap (m : ManagerState) (r : Ref) (now : Nat) (putOk : Bool) :
    Except SwapErr Unit × ManagerState :=
  let info := heapGet m.heap r
  match lookupA m.ongoing info.offerID with
  | none => (.error .errNoSwapWithID, m)
  | some _ =>
    let info' : Info := { info with endTime := some now }
    let m1 : ManagerState :=
      { m with
        heap := heapSet m.heap r info'
        past := insertA m.past info.offerID r
        ongoing := eraseA m.ongoing info.offerID }
    if putOk then (.ok (), { m1 with db := insertA m1.db info'.offerID info' })
    else (.error .errStorageFailed, m1)

/-- Accumulate an id into the id set (`ids[id] = struct{}{}` on a Go map keyed
by hash): no effect when already present. -/
def insertIfAbsent (acc : List Hash) (h : Hash) : List Hash :=
  if h ∈ acc then acc else acc ++ [h]

/-- Function `manager.GetPastIDs` (manager.go:92-122): a set of ids built from the keys
of the in-memory past map, then every record of `db.GetAllSwaps()` whose
status is not ongoing. -/
def GetPastIDs (m : ManagerState) : List Hash :=
  let ids := m.past.foldl (fun acc p => insertIfAbsent acc p.1) []
  (m.db.map (fun p => p.2)).foldl
    (fun acc s => if s.status.IsOngoing then acc else insertIfAbsent acc s.offerID) ids

/-- Function `manager.getSwapFromDB` (manager.go:197-207): `db.GetSwap(id)`, with
`chaindb.ErrKeyNotFound` mapped to `errNoSwapWithID`. -/
def getSwapFromDB (m : ManagerState) (id : Hash) : Except SwapErr Info :=
  match lookupA m.db id with
  | none => .error .errNoSwapWithID
  | some s => .ok s

/-- Function `manager.GetPastSwap` (manager.go:125-141): on a past-map hit returns the
stored pointer (no copy); on a miss loads the record from the database — the
decoded record is a fresh heap object — caches it under `s.OfferID` in the
past map, and returns it.  No status check is performed on the loaded
record. -/
def GetPastSwap (m : ManagerState) (id : Hash) : Except SwapErr (Ref × ManagerState) :=
  match lookupA m.past id with
  | some r => .ok (r, m)
  | none =>
    match getSwapFromDB m id with
    | .error e => .error e
    | .ok s =>
      .ok (m.heap.length,
           { m with
             heap := m.heap ++ [s]
             past := insertA m.past s.offerID m.heap.length })

/-- Function `manager.HasOngoingSwap` (manager.go:190-195). -/
def HasOngoingSwap (m : ManagerState) (id : Hash) : Bool :=
  (lookupA m.ongoing id).isSome

/-! ## Maker state machine pieces (`protocol/xmrmaker`) -/

/-- The event-type tags of the maker's swapState.  The type is declared in
`event.go` (not among the sources); these constructors are the ones `swap.go`
uses. -/
inductive EventType where
  | EventETHLockedType
  | EventContractReadyType
  | EventETHRefundedType
  | EventNoneType
  deriving DecidableEq, Repr

/-- What `swapState.exit`'s deferred cleanup does to the maker's offer. -/
inductive OfferAction where
  | deleted
  | readded
  | kept
  deriving DecidableEq, Repr

/-- Observable effects of `swapState.exit`'s deferred cleanup block. -/
structure ExitEffects where
  offerAction : OfferAction
  recoveryDeleted : Bool
  doneClosed : Bool
  deriving DecidableEq, Repr

/-- The deferred cleanup of `swapState.exit` (xmrmaker swap.go, manager.go
lines 1164-1253): after `CompleteOngoingSwap` (whose success is `completeOk`;
on failure the deferred function returns early), the offer is re-added when
the final status is not `CompletedSuccess` and the offer is set, deleted when
the status is `CompletedSuccess`, and otherwise untouched; then the recovery
record is deleted and `done` is closed. -/
def exitCleanup (status : Status) (offerIsSet : Bool) (completeOk : Bool) : ExitEffects :=
  if !completeOk then ⟨.kept, false, false⟩
  else if status ≠ .CompletedSuccess ∧ offerIsSet then ⟨.readded, true, true⟩
  else if status = .CompletedSuccess then ⟨.deleted, true, true⟩
  else ⟨.kept, true, true⟩

/-- The suspendable steps `swapState.lockFunds` performs, in order.  A
`setNextExpectedEvent` step records the event it persists and whether the
persist succeeded. -/
inductive LockStep where
  | getBalance
  | setNextExpectedEvent (e : EventType) (ok : Bool)
  | transferXMR
  deriving DecidableEq, Repr

/-- Result of `lockFunds`. -/
inductive LockResult where
  | ok
  | balanceErr
  | persistErr
  | transferErr
  deriving DecidableEq, Repr

/-- Function `swapState.lockFunds` (xmrmaker swap.go, manager.go lines 1352-1381):
queries the XMR balance, persists next-expected-event `ContractReady`
(`setNextExpectedEvent(EventContractReadyType)`) — returning an error if that
fails — and only then calls `XMRClient().Transfer`.  The three Booleans are
the environment's success/failure of each fallible step; the returned list is
the trace of steps reached. -/
def lockFunds (balanceOk persistOk transferOk : Bool) : List LockStep × LockResult :=
  if !balanceOk then ([.getBalance], .balanceErr)
  else if !persistOk then
    ([.getBalance, .setNextExpectedEvent .EventContractReadyType false], .persistErr)
  else if !transferOk then
    ([.getBalance, .setNextExpectedEvent .EventContractReadyType true, .transferXMR],
     .transferErr)
  else
    ([.getBalance, .setNextExpectedEvent .EventContractReadyType true, .transferXMR], .ok)

/-- Type `contracts.Stage` (ethereum package, not among the sources); spec §6:
`swaps(id) → stage ∈ {Invalid, Pending, Ready, Completed}`. -/
inductive Stage where
  | StageInvalid
  | StagePending
  | StageReady
  | StageCompleted
  deriving DecidableEq, Repr

/-- An EVM log as `checkIfAlreadyClaimed` inspects it: its topic list
(topic 0 is the event signature, topic 1 the contract swap id) and the
`Removed` reorg flag. -/
structure EthLog where
  topics : List Nat
  removed : Bool
  deriving DecidableEq, Repr

/-- Modelled from the spec: `pcommon.CheckSwapID` (protocol package, not among
the sources) — events are "each tagged with the swap id in topic[1]" (§6), so
the check succeeds (does not return `ErrLogNotForUs`) iff the log's topic 1 is
our contract swap id. -/
def checkSwapIDForUs (l : EthLog) (swapID : Nat) : Bool :=
  l.topics.getD 1 0 == swapID

/-- Recovery errors of `newSwapStateFromOngoing`. -/
inductive RecErr where
  | errSwapDoesNotExist
  | errSwapAlreadyCompleted
  | errCompleteSwapFailed
  | errInvalidStageForRecovery
  deriving DecidableEq, Repr

/-- Function `checkIfAlreadyClaimed` (xmrmaker swap.go, manager.go lines 886-952):
queries the contract stage for our swap id; `Invalid` is an error
(`errSwapDoesNotExist`), `Pending`/`Ready` mean not claimed; on `Completed` it
filters the chain's logs from the persisted start block (`logs` is that query
result) and reports a claim iff some log has the `Claimed` topic, is not
`Removed`, and carries our swap id. -/
def checkIfAlreadyClaimed (claimedTopic swapID : Nat) (stage : Stage)
    (logs : List EthLog) : Except RecErr Bool :=
  match stage with
  | .StageInvalid => .error .errSwapDoesNotExist
  | .StagePending => .ok false
  | .StageReady => .ok false
  | .StageCompleted =>
    .ok (logs.any fun l =>
      l.topics.getD 0 0 == claimedTopic && !l.removed && checkSwapIDForUs l swapID)

/-- Function `completeSwap` (xmrmaker swap.go, manager.go lines 954-976) as it affects
the manager: sets the record's status to `CompletedSuccess` through the
`*Info` and calls `CompleteOngoingSwap` (offer and recovery-record deletion
elided).  Any failure is surfaced as an error. -/
def completeSwapRecovery (m : ManagerState) (r : Ref) (now : Nat) (putOk : Bool) :
    Except Unit Unit × ManagerState :=
  let info := heapGet m.heap r
  let m0 : ManagerState :=
    { m with heap := heapSet m.heap r { info with status := .CompletedSuccess } }
  match CompleteOngoingSwap m0 r now putOk with
  | (.ok _, m1) => (.ok (), m1)
  | (.error _, m1) => (.error (), m1)

/-- The part of the resumed `swapState` that `newSwapStateFromOngoing` builds
from the persisted data: the EVM start block its watchers replay from, and the
offer id. -/
structure ResumedSwap where
  startBlock : Nat
  offerID : Hash
  deriving DecidableEq, Repr

/-- Function `newSwapStateFromOngoing` (xmrmaker swap.go, manager.go lines 980-1030):
first `checkIfAlreadyClaimed`; on error that error propagates; if already
claimed, `completeSwap` runs and an error is returned either way ("swap was
already completed successfully" on success); otherwise a resumed state machine
is returned only when the persisted status is `XMRLocked`, and every other
status fails with `errInvalidStageForRecovery`.  `r` is the `*Info` of the
ongoing record; `stage`/`logs` are the chain's answers; `startBlock` is
`ethSwapInfo.StartNumber`. -/
def newSwapStateFromOngoing (m : ManagerState) (r : Ref) (claimedTopic swapID : Nat)
    (stage : Stage) (logs : List EthLog) (startBlock : Nat) (now : Nat) (putOk : Bool) :
    Except RecErr ResumedSwap × ManagerState :=
  match checkIfAlreadyClaimed claimedTopic swapID stage logs with
  | .error e => (.error e, m)
  | .ok true =>
    match completeSwapRecovery m r now putOk with
    | (.ok _, m1) => (.error .errSwapAlreadyCompleted, m1)
    | (.error _, m1) => (.error .errCompleteSwapFailed, m1)
  | .ok false =>
    if (heapGet m.heap r).status = .XMRLocked then
      (.ok ⟨startBlock, (heapGet m.heap r).offerID⟩, m)
    else
      (.error .errInvalidStageForRecovery, m)

/-! ## The external transaction sender (`protocol/txsender`) -/

/-- Type `common.Environment` (common package, not among the sources); spec:
development, stagenet, mainnet. -/
inductive Environment where
  | Mainnet
  | Stagenet
  | Development
  deriving DecidableEq, Repr

/-- Package-level state of `txsender` together with the `ExternalSender`
instances constructed in the process: `transactionTimeout` (here in seconds)
is a package variable (manager.go:236), shared by every instance. -/
structure TxSenderPackage where
  transactionTimeout : Nat
  senders : List Environment
  deriving DecidableEq, Repr

/-- Initial package state: `transactionTimeout = time.Minute * 2` and no
senders constructed yet. -/
def initTxSenderPackage : TxSenderPackage := ⟨120, []⟩

/-- Function `NewExternalSender` (manager.go:263-284): for `Mainnet` or `Stagenet` it
assigns `transactionTimeout = time.Hour` — a write to the package variable —
and otherwise leaves it alone; the new sender is appended to the process's
instances. -/
def NewExternalSender (env : Environment) (p : TxSenderPackage) : TxSenderPackage :=
  { transactionTimeout :=
      match env with
      | .Mainnet => 3600
      | .Stagenet => 3600
      | .Development => p.transactionTimeout
    senders := p.senders ++ [env] }

/-- The sign timeout the `i`-th constructed `ExternalSender` waits for in
`NewSwap`/`sendAndReceive`: every instance reads the shared package
variable. -/
def senderSignTimeout (p : TxSenderPackage) (_i : Nat) : Nat := p.transactionTimeout

/-- Errors of `ExternalSender.NewSwap`: the ERC-20 rejection and
`errTransactionTimeout`. -/
inductive NewSwapErr where
  | errUnsupported
  | errSignTimeout
  deriving DecidableEq, Repr

deriving instance DecidableEq for Except

/-- Result of `ExternalSender.NewSwap` plus how many transactions were placed
on the outbound (`out`) channel. -/
structure NewSwapOutcome where
  result : Except NewSwapErr Unit
  sentTxs : Nat
  deriving DecidableEq, Repr

/-- Function `ExternalSender.NewSwap` (manager.go:320-362): token assets are rejected
before anything is sent; otherwise the packed Transaction goes on the `out`
channel and the sender selects between `time.After(transactionTimeout)` and
the `in` channel.  `hashArrival = some t` means the front-end returns a tx
hash `t` seconds after the send (`none`: never); a hash arriving at or after
the timeout loses the select.  `.ok` abstracts proceeding to
`WaitForReceipt`. -/
def ExternalSenderNewSwap (p : TxSenderPackage) (isToken : Bool)
    (hashArrival : Option Nat) : NewSwapOutcome :=
  if isToken then ⟨.error .errUnsupported, 0⟩
  else
    match hashArrival with
    | none => ⟨.error .errSignTimeout, 1⟩
    | some t =>
      if p.transactionTimeout ≤ t then ⟨.error .errSignTimeout, 1⟩ else ⟨.ok (), 1⟩

/-! ## Concrete fixtures used by witnesses and counterexamples -/

/-- An ongoing (XMR-locked) swap record with offer id 1. -/
def infoA : Info := ⟨1, .XMRLocked, 7, none⟩

/-- A value a caller might overwrite a returned record with. -/
def infoB : Info := ⟨1, .CompletedAbort, 0, none⟩

/-- An ongoing (ETH-locked) swap record with offer id 2. -/
def infoC : Info := ⟨2, .ETHLocked, 3, none⟩

/-- A manager holding the single ongoing swap `infoA`, already persisted. -/
def mA : ManagerState := ⟨[infoA], [(1, 0)], [], [(1, infoA)]⟩

/-- A manager with empty maps whose database holds the ongoing record
`infoC`. -/
def mB : ManagerState := ⟨[], [], [], [(2, infoC)]⟩

/-! ## Association list and heap lemmas -/

theorem lookupA_insertA_self {α : Type} (l : List (Nat × α)) (k : Nat) (v : α) :
    lookupA (insertA l k v) k = some v := by
  induction l with
  | nil => simp [insertA, lookupA]
  | cons p rest ih =>
    obtain ⟨k', v'⟩ := p
    by_cases h : k' = k <;> simp [insertA, lookupA, h, ih]

theorem lookupA_insertA_ne {α : Type} (l : List (Nat × α)) (k k' : Nat) (v : α)
    (h : k' ≠ k) : lookupA (insertA l k v) k' = lookupA l k' := by
  induction l with
  | nil =>
    simp only [insertA, lookupA]
    rw [if_neg (by omega)]
  | cons p rest ih =>
    obtain ⟨k₀, v₀⟩ := p
    by_cases h0 : k₀ = k
    · simp only [insertA, if_pos h0, lookupA]
      rw [if_neg (by omega : ¬k = k'), if_neg (by omega : ¬k₀ = k')]
    · simp only [insertA, if_neg h0, lookupA]
      by_cases h1 : k₀ = k' <;> simp [h1, ih]

theorem lookupA_eraseA_self {α : Type} (l : List (Nat × α)) (k : Nat) :
    lookupA (eraseA l k) k = none := by
  induction l with
  | nil => simp [eraseA, lookupA]
  | cons p rest ih =>
    obtain ⟨k', v'⟩ := p
    by_cases h : k' = k <;> simp [eraseA, lookupA, h, ih]

theorem lookupA_eraseA_ne {α : Type} (l : List (Nat × α)) (k k' : Nat)
    (h : k' ≠ k) : lookupA (eraseA l k) k' = lookupA l k' := by
  induction l with
  | nil => simp [eraseA]
  | cons p rest ih =>
    obtain ⟨k₀, v₀⟩ := p
    by_cases h0 : k₀ = k
    · simp only [eraseA, if_pos h0, lookupA]
      rw [ih, if_neg (by omega : ¬k₀ = k')]
    · simp only [eraseA, if_neg h0, lookupA]
      by_cases h1 : k₀ = k' <;> simp [h1, ih]

theorem heapGet_append_left (heap tail : List Info) (r : Ref)
    (h : r < heap.length) : heapGet (heap ++ tail) r = heapGet heap r := by
  simp [heapGet, List.getD_eq_getElem?_getD, List.getElem?_append, h]

theorem heapGet_append_self (heap : List Info) (v : Info) :
    heapGet (heap ++ [v]) heap.length = v := by
  simp [heapGet, List.getD_eq_getElem?_getD, List.getElem?_append]

theorem heapGet_heapSet_ne (heap : List Info) (r r' : Ref) (v : Info)
    (h : r ≠ r') : heapGet (heapSet heap r' v) r = heapGet heap r := by
  simp [heapGet, heapSet, List.getD_eq_getElem?_getD, List.getElem?_set_ne (Ne.symm h)]

theorem heapGet_heapSet_self (heap : List Info) (r : Ref) (v : Info)
    (h : r < heap.length) : heapGet (heapSet heap r v) r = v := by
  simp [heapGet, heapSet, List.getD_eq_getElem?_getD, List.getElem?_set_self, h]

/-! ## Behaviour of `CompleteOngoingSwap` -/

theorem CompleteOngoingSwap_notFound (m : ManagerState) (r : Ref) (now : Nat)
    (putOk : Bool) (h : lookupA m.ongoing (heapGet m.heap r).offerID = none) :
    CompleteOngoingSwap m r now putOk = (.error .errNoSwapWithID, m) := by
  simp [CompleteOngoingSwap, h]

theorem CompleteOngoingSwap_found (m : ManagerState) (r : Ref) (now : Nat)
    (putOk : Bool) (r₀ : Ref)
    (h : lookupA m.ongoing (heapGet m.heap r).offerID = some r₀) :
    CompleteOngoingSwap m r now putOk =
      ((if putOk then Except.ok () else Except.error SwapErr.errStorageFailed),
       { heap := heapSet m.heap r { heapGet m.heap r with endTime := some now }
         ongoing := eraseA m.ongoing (heapGet m.heap r).offerID
         past := insertA m.past (heapGet m.heap r).offerID r
         db := if putOk then
                 insertA m.db (heapGet m.heap r).offerID
                   { heapGet m.heap r with endTime := some now }
               else m.db }) := by
  cases putOk <;> simp [CompleteOngoingSwap, h]

/-- C1 (counterexample): `CompleteOngoingSwap` does not write the record to
persistence before clearing the in-memory ongoing entry.  On the concrete
manager `mA` holding ongoing swap 1, a failing persistence write still leaves
the swap removed from the ongoing map, contradicting "if the persistence write
fails, the swap is still present in the ongoing map". -/
theorem CompleteOngoingSwap_writes_after_clearing_cex :
    (CompleteOngoingSwap mA 0 5 false).1 = .error .errStorageFailed ∧
    lookupA (CompleteOngoingSwap mA 0 5 false).2.ongoing 1 = none := by decide

/-- C1 (amended): `CompleteOngoingSwap` clears the in-memory ongoing entry and
moves the record to the past map (stamping the end time) before the
persistence write; when the write fails, the error is returned but the swap is
no longer in the ongoing map — it is in the past map with an end timestamp,
and the database is unchanged. -/
theorem CompleteOngoingSwap_clears_before_writing (m : ManagerState) (r : Ref)
    (now : Nat) (hr : r < m.heap.length) (r₀ : Ref)
    (h : lookupA m.ongoing (heapGet m.heap r).offerID = some r₀) :
    (CompleteOngoingSwap m r now false).1 = .error .errStorageFailed ∧
    lookupA (CompleteOngoingSwap m r now false).2.ongoing (heapGet m.heap r).offerID = none ∧
    lookupA (CompleteOngoingSwap m r now false).2.past (heapGet m.heap r).offerID = some r ∧
    heapGet (CompleteOngoingSwap m r now false).2.heap r
      = { heapGet m.heap r with endTime := some now } ∧
    (CompleteOngoingSwap m r now false).2.db = m.db := by
  rw [CompleteOngoingSwap_found m r now false r₀ h]
  exact ⟨rfl, lookupA_eraseA_self _ _, lookupA_insertA_self _ _ _,
         heapGet_heapSet_self m.heap r _ hr, rfl⟩

/-- Witness for `CompleteOngoingSwap_clears_before_writing` at the concrete
manager `mA`. -/
theorem CompleteOngoingSwap_clears_before_writing_witness :
    lookupA (CompleteOngoingSwap mA 0 5 false).2.past 1 = some 0 ∧
    (CompleteOngoingSwap mA 0 5 false).2.db = mA.db := by
  have h := CompleteOngoingSwap_clears_before_writing mA 0 5 (by decide) 0 (by decide)
  exact ⟨h.2.2.1, h.2.2.2.2⟩

/-- C2: `CompleteOngoingSwap` fails with `errNoSwapWithID` iff no ongoing swap
with the record's offer id exists, in which case the state (maps, heap, db) is
untouched; otherwise it stamps an end time on the record, removes it from the
ongoing map, inserts it into the past map, and — when the persistence write
succeeds — returns ok with the stamped record written through to the
database. -/
theorem CompleteOngoingSwap_spec (m : ManagerState) (r : Ref) (now : Nat)
    (putOk : Bool) (hr : r < m.heap.length) :
    (((CompleteOngoingSwap m r now putOk).1 = .error .errNoSwapWithID) ↔
      lookupA m.ongoing (heapGet m.heap r).offerID = none) ∧
    (lookupA m.ongoing (heapGet m.heap r).offerID = none →
      (CompleteOngoingSwap m r now putOk).2 = m) ∧
    (∀ r₀, lookupA m.ongoing (heapGet m.heap r).offerID = some r₀ →
      heapGet (CompleteOngoingSwap m r now putOk).2.heap r
          = { heapGet m.heap r with endTime := some now } ∧
      lookupA (CompleteOngoingSwap m r now putOk).2.ongoing (heapGet m.heap r).offerID
          = none ∧
      lookupA (CompleteOngoingSwap m r now putOk).2.past (heapGet m.heap r).offerID
          = some r ∧
      (putOk = true →
        (CompleteOngoingSwap m r now putOk).1 = .ok () ∧
        lookupA (CompleteOngoingSwap m r now putOk).2.db (heapGet m.heap r).offerID
            = some { heapGet m.heap r with endTime := some now })) := by
  cases hcase : lookupA m.ongoing (heapGet m.heap r).offerID with
  | none =>
    rw [CompleteOngoingSwap_notFound m r now putOk hcase]
    exact ⟨by simp, fun _ => rfl, fun r₀ h0 => Option.noConfusion h0⟩
  | some r₀ =>
    rw [CompleteOngoingSwap_found m r now putOk r₀ hcase]
    refine ⟨?_, ?_, ?_⟩
    · cases putOk <;> simp
    · intro h0
      cases h0
    · intro r₁ _
      refine ⟨heapGet_heapSet_self m.heap r _ hr, lookupA_eraseA_self _ _,
              lookupA_insertA_self _ _ _, ?_⟩
      rintro rfl
      exact ⟨rfl, lookupA_insertA_self _ _ _⟩

/-- Witness for `CompleteOngoingSwap_spec` at the concrete manager `mA` with a
succeeding persistence write. -/
theorem CompleteOngoingSwap_spec_witness :
    lookupA (CompleteOngoingSwap mA 0 5 true).2.ongoing 1 = none ∧
    lookupA (CompleteOngoingSwap mA 0 5 true).2.past 1 = some 0 ∧
    (CompleteOngoingSwap mA 0 5 true).1 = .ok () := by
  have h := (CompleteOngoingSwap_spec mA 0 5 true (by decide)).2.2 0 (by decide)
  exact ⟨h.2.1, h.2.2.1, (h.2.2.2 rfl).1⟩

/-- C3 (counterexample): in `swapState.exit`, a swap ending in
`CompletedAbort` with its offer set does not get the offer deleted — the
deferred cleanup re-adds the offer instead, contradicting "the offer is
deleted both on swap success and on swap abort". -/
theorem exit_offer_on_abort_cex :
    (exitCleanup .CompletedAbort true true).offerAction = .readded ∧
    (exitCleanup .CompletedAbort true true).offerAction ≠ .deleted := by decide

/-- C3 (amended): when the state machine exits and `CompleteOngoingSwap`
succeeds, the maker's offer is deleted only on `CompletedSuccess`; on
`CompletedAbort` (as on `CompletedRefund`) the offer is re-added when it is
set, and left alone when it is not. -/
theorem exit_offer_handling :
    ∀ offerIsSet : Bool,
      (exitCleanup .CompletedSuccess offerIsSet true).offerAction = .deleted ∧
      (exitCleanup .CompletedAbort true true).offerAction = .readded ∧
      (exitCleanup .CompletedRefund true true).offerAction = .readded ∧
      (exitCleanup .CompletedAbort false true).offerAction = .kept := by decide

/-- C4: `lockFunds` persists next-expected-event `ContractReady` strictly
before initiating the XMR transfer — whenever the transfer step appears in
the trace, a successful persist of `ContractReady` precedes it — and when the
persist fails, `lockFunds` returns an error and no transfer is attempted. -/
theorem lockFunds_persist_before_transfer :
    ∀ balanceOk persistOk transferOk : Bool,
      (LockStep.transferXMR ∈ (lockFunds balanceOk persistOk transferOk).1 →
        ∃ pre suf,
          (lockFunds balanceOk persistOk transferOk).1
            = pre ++ LockStep.transferXMR :: suf ∧
          LockStep.setNextExpectedEvent .EventContractReadyType true ∈ pre) ∧
      (persistOk = false →
        (lockFunds balanceOk persistOk transferOk).2 ≠ .ok ∧
        LockStep.transferXMR ∉ (lockFunds balanceOk persistOk transferOk).1) := by
  intro balanceOk persistOk transferOk
  refine ⟨fun hmem => ?_, fun hp => ?_⟩
  · cases balanceOk <;> cases persistOk <;> cases transferOk <;>
      first
        | exact absurd hmem (by decide)
        | exact ⟨[LockStep.getBalance,
                  LockStep.setNextExpectedEvent .EventContractReadyType true],
                 [], rfl, by decide⟩
  · subst hp
    cases balanceOk <;> cases transferOk <;> exact ⟨by decide, by decide⟩

/-- Witness for `lockFunds_persist_before_transfer`: the happy path contains
the transfer preceded by the persist, and a failing persist yields an error
with no transfer step. -/
theorem lockFunds_persist_before_transfer_witness :
    (∃ pre suf,
      (lockFunds true true true).1 = pre ++ LockStep.transferXMR :: suf ∧
      LockStep.setNextExpectedEvent .EventContractReadyType true ∈ pre) ∧
    (lockFunds true false true).2 ≠ .ok ∧
    LockStep.transferXMR ∉ (lockFunds true false true).1 :=
  ⟨(lockFunds_persist_before_transfer true true true).1 (by decide),
   (lockFunds_persist_before_transfer true false true).2 rfl⟩

/-- C7: `GetOngoingSwap` and `GetOngoingSwaps` return defensive copies — the
returned record equals the stored one, and overwriting any returned cell with
any value leaves every record held in the ongoing map unchanged. -/
theorem GetOngoing_defensive_copies (m : ManagerState) (hwf : m.WF) :
    (∀ id r' m', GetOngoingSwap m id = .ok (r', m') →
      (∀ r₀, lookupA m.ongoing id = some r₀ →
        heapGet m'.heap r' = heapGet m.heap r₀) ∧
      ∀ (v : Info) (hsh : Hash) (r : Ref), (hsh, r) ∈ m.ongoing →
        heapGet (heapSet m'.heap r' v) r = heapGet m.heap r) ∧
    (∀ r', r' ∈ (GetOngoingSwaps m).1 →
      ∀ (v : Info) (hsh : Hash) (r : Ref), (hsh, r) ∈ m.ongoing →
        heapGet (heapSet (GetOngoingSwaps m).2.heap r' v) r = heapGet m.heap r) := by
  constructor
  · intro id r' m' hok
    cases hl : lookupA m.ongoing id with
    | none =>
      rw [GetOngoingSwap, hl] at hok
      cases hok
    | some r₀' =>
      rw [GetOngoingSwap, hl] at hok
      simp only [Except.ok.injEq, Prod.mk.injEq] at hok
      obtain ⟨h1, h2⟩ := hok
      subst h1
      subst h2
      constructor
      · intro r₀ hr₀
        cases hr₀
        exact heapGet_append_self m.heap _
      · intro v hsh r hmem
        have hrlen : r < m.heap.length := hwf.1 (hsh, r) hmem
        have hne : r ≠ m.heap.length := Nat.ne_of_lt hrlen
        rw [heapGet_heapSet_ne _ _ _ _ hne]
        exact heapGet_append_left _ _ _ hrlen
  · intro r' hr' v hsh r hmem
    have hrlen : r < m.heap.length := hwf.1 (hsh, r) hmem
    have hge : m.heap.length ≤ r' := by
      simp only [GetOngoingSwaps, List.mem_map, List.mem_range] at hr'
      obtain ⟨i, _, rfl⟩ := hr'
      omega
    have hne : r ≠ r' := Nat.ne_of_lt (Nat.lt_of_lt_of_le hrlen hge)
    rw [heapGet_heapSet_ne _ _ _ _ hne]
    simp only [GetOngoingSwaps]
    exact heapGet_append_left _ _ _ hrlen

/-- Witness for `GetOngoing_defensive_copies`: on the concrete manager `mA`,
overwriting the cell returned by `GetOngoingSwap mA 1` leaves the stored
record at ref 0 unchanged. -/
theorem GetOngoing_defensive_copies_witness :
    heapGet (heapSet (mA.heap ++ [heapGet mA.heap 0]) 1 infoB) 0 = heapGet mA.heap 0 :=
  ((GetOngoing_defensive_copies mA (by decide)).1 1 1
      { mA with heap := mA.heap ++ [heapGet mA.heap 0] } (by decide)).2 infoB 1 0
    (by decide)

/-! ## Lemmas about the id-set construction of `GetPastIDs` -/

theorem mem_insertIfAbsent (acc : List Hash) (x h : Hash) :
    x ∈ insertIfAbsent acc h ↔ x ∈ acc ∨ x = h := by
  unfold insertIfAbsent
  by_cases hmem : h ∈ acc
  · rw [if_pos hmem]
    constructor
    · exact Or.inl
    · rintro (hx | rfl)
      · exact hx
      · exact hmem
  · rw [if_neg hmem]
    simp [List.mem_append]

theorem nodup_insertIfAbsent (acc : List Hash) (h : Hash) (hnd : acc.Nodup) :
    (insertIfAbsent acc h).Nodup := by
  unfold insertIfAbsent
  by_cases hmem : h ∈ acc
  · rw [if_pos hmem]
    exact hnd
  · rw [if_neg hmem]
    simp [List.nodup_append, hnd, hmem]

theorem mem_foldl_insert_keys (l : List (Hash × Ref)) (acc : List Hash) (x : Hash) :
    x ∈ l.foldl (fun a p => insertIfAbsent a p.1) acc ↔
      x ∈ acc ∨ ∃ r, (x, r) ∈ l := by
  induction l generalizing acc with
  | nil => simp
  | cons p rest ih =>
    obtain ⟨k, v⟩ := p
    rw [List.foldl_cons, ih, mem_insertIfAbsent]
    constructor
    · rintro ((hx | rfl) | ⟨r, hr⟩)
      · exact Or.inl hx
      · exact Or.inr ⟨v, List.mem_cons_self _ _⟩
      · exact Or.inr ⟨r, List.mem_cons_of_mem _ hr⟩
    · rintro (hx | ⟨r, hr⟩)
      · exact Or.inl (Or.inl hx)
      · rcases List.mem_cons.mp hr with heq | hmem
        · exact Or.inl (Or.inr (congrArg Prod.fst heq))
        · exact Or.inr ⟨r, hmem⟩

theorem nodup_foldl_insert_keys (l : List (Hash × Ref)) (acc : List Hash)
    (h : acc.Nodup) : (l.foldl (fun a p => insertIfAbsent a p.1) acc).Nodup := by
  induction l generalizing acc with
  | nil => simpa
  | cons p rest ih => exact ih _ (nodup_insertIfAbsent _ _ h)

theorem mem_foldl_insert_nonongoing (l : List Info) (acc : List Hash) (x : Hash) :
    x ∈ l.foldl
        (fun a s => if s.status.IsOngoing then a else insertIfAbsent a s.offerID) acc ↔
      x ∈ acc ∨ ∃ s, s ∈ l ∧ s.offerID = x ∧ s.status.IsOngoing = false := by
  induction l generalizing acc with
  | nil => simp
  | cons s rest ih =>
    rw [List.foldl_cons]
    by_cases hs : s.status.IsOngoing = true
    · rw [if_pos hs, ih]
      constructor
      · rintro (hx | ⟨t, ht, h1, h2⟩)
        · exact Or.inl hx
        · exact Or.inr ⟨t, List.mem_cons_of_mem _ ht, h1, h2⟩
      · rintro (hx | ⟨t, ht, h1, h2⟩)
        · exact Or.inl hx
        · rcases List.mem_cons.mp ht with rfl | hmem
          · rw [hs] at h2
            cases h2
          · exact Or.inr ⟨t, hmem, h1, h2⟩
    · have hs' : s.status.IsOngoing = false := by
        revert hs
        cases s.status.IsOngoing <;> simp
      rw [if_neg hs, ih, mem_insertIfAbsent]
      constructor
      · rintro ((hx | rfl) | ⟨t, ht, h1, h2⟩)
        · exact Or.inl hx
        · exact Or.inr ⟨s, List.mem_cons_self _ _, rfl, hs'⟩
        · exact Or.inr ⟨t, List.mem_cons_of_mem _ ht, h1, h2⟩
      · rintro (hx | ⟨t, ht, h1, h2⟩)
        · exact Or.inl (Or.inl hx)
        · rcases List.mem_cons.mp ht with rfl | hmem
          · exact Or.inl (Or.inr h1.symm)
          · exact Or.inr ⟨t, hmem, h1, h2⟩

theorem nodup_foldl_insert_nonongoing (l : List Info) (acc : List Hash)
    (h : acc.Nodup) :
    (l.foldl
      (fun a s => if s.status.IsOngoing then a else insertIfAbsent a s.offerID)
      acc).Nodup := by
  induction l generalizing acc with
  | nil => simpa
  | cons s rest ih =>
    rw [List.foldl_cons]
    by_cases hs : s.status.IsOngoing = true
    · rw [if_pos hs]
      exact ih _ h
    · rw [if_neg hs]
      exact ih _ (nodup_insertIfAbsent _ _ h)

/-- C8: `GetPastIDs` returns exactly the duplicate-free union of the ids in
the past map and of the persisted records whose status is not ongoing: the
result has no duplicate, and an id is in the result iff it is a key of the
past map or the offer id of a stored non-ongoing record. -/
theorem GetPastIDs_spec (m : ManagerState) :
    (GetPastIDs m).Nodup ∧
    ∀ id, id ∈ GetPastIDs m ↔
      ((∃ r, (id, r) ∈ m.past) ∨
        ∃ p, p ∈ m.db ∧ p.2.offerID = id ∧ p.2.status.IsOngoing = false) := by
  constructor
  · simp only [GetPastIDs]
    exact nodup_foldl_insert_nonongoing _ _ (nodup_foldl_insert_keys _ _ List.nodup_nil)
  · intro id
    simp only [GetPastIDs]
    rw [mem_foldl_insert_nonongoing, mem_foldl_insert_keys]
    constructor
    · rintro ((hnil | ⟨r, hr⟩) | ⟨s, hs, h1, h2⟩)
      · cases hnil
      · exact Or.inl ⟨r, hr⟩
      · obtain ⟨p, hp, rfl⟩ := List.mem_map.mp hs
        exact Or.inr ⟨p, hp, h1, h2⟩
    · rintro (⟨r, hr⟩ | ⟨p, hp, h1, h2⟩)
      · exact Or.inl (Or.inr ⟨r, hr⟩)
      · exact Or.inr ⟨p.2, List.mem_map.mpr ⟨p, hp, rfl⟩, h1, h2⟩

/-- C9: `GetPastSwap` performs no status check on a record loaded from
persistence: when the id is absent from the past map but the database holds a
record — here one whose status is ongoing — the record is returned and cached
in the past map under its offer id. -/
theorem GetPastSwap_no_status_check (m : ManagerState) (id : Hash) (v : Info)
    (h1 : lookupA m.past id = none) (h2 : lookupA m.db id = some v)
    (_h3 : v.status.IsOngoing = true) :
    ∃ r' m', GetPastSwap m id = .ok (r', m') ∧
      heapGet m'.heap r' = v ∧
      lookupA m'.past v.offerID = some r' := by
  refine ⟨m.heap.length,
    { m with heap := m.heap ++ [v], past := insertA m.past v.offerID m.heap.length },
    ?_, ?_, ?_⟩
  · simp [GetPastSwap, getSwapFromDB, h1, h2]
  · exact heapGet_append_self m.heap v
  · exact lookupA_insertA_self _ _ _

/-- Witness for `GetPastSwap_no_status_check`: the manager `mB` has an empty
past map and an ongoing record for id 2 in its database; `GetPastSwap mB 2`
returns and caches that ongoing record. -/
theorem GetPastSwap_no_status_check_witness :
    ∃ r' m', GetPastSwap mB 2 = .ok (r', m') ∧
      heapGet m'.heap r' = infoC ∧
      lookupA m'.past infoC.offerID = some r' :=
  GetPastSwap_no_status_check mB 2 infoC rfl rfl rfl

/-! ## Recovery (`newSwapStateFromOngoing`) -/

theorem claimed_log_iff (logs : List EthLog) (claimedTopic swapID : Nat) :
    (logs.any fun l =>
        l.topics.getD 0 0 == claimedTopic && !l.removed && checkSwapIDForUs l swapID)
      = true ↔
    ∃ l, l ∈ logs ∧ l.topics.getD 0 0 = claimedTopic ∧ l.removed = false ∧
      l.topics.getD 1 0 = swapID := by
  rw [List.any_eq_true]
  constructor
  · rintro ⟨l, hl, hb⟩
    refine ⟨l, hl, ?_⟩
    simp only [checkSwapIDForUs, Bool.and_eq_true, beq_iff_eq, Bool.not_eq_true'] at hb
    exact ⟨hb.1.1, hb.1.2, hb.2⟩
  · rintro ⟨l, hl, hc1, hc2, hc3⟩
    refine ⟨l, hl, ?_⟩
    simp only [checkSwapIDForUs, Bool.and_eq_true, beq_iff_eq, Bool.not_eq_true']
    exact ⟨⟨hc1, hc2⟩, hc3⟩

/-- C5: `newSwapStateFromOngoing` first checks whether the ETH was already
claimed — contract stage `Completed` together with a non-removed `Claimed` log
for our swap id among the logs filtered from the persisted start block.  If
so, it completes the swap (its state change is exactly `completeSwap`'s) and
returns an error, never a state machine; otherwise it returns a resumed state
machine (watching from the persisted start block) exactly when the persisted
status is `XMRLocked`, and fails with `errInvalidStageForRecovery` for every
other status, the state untouched. -/
theorem newSwapStateFromOngoing_spec (m : ManagerState) (r : Ref)
    (claimedTopic swapID : Nat) (stage : Stage) (logs : List EthLog)
    (startBlock now : Nat) (putOk : Bool) (hstage : stage ≠ .StageInvalid) :
    ((stage = .StageCompleted ∧ ∃ l, l ∈ logs ∧ l.topics.getD 0 0 = claimedTopic ∧
        l.removed = false ∧ l.topics.getD 1 0 = swapID) →
      (∃ e, (newSwapStateFromOngoing m r claimedTopic swapID stage logs
              startBlock now putOk).1 = .error e ∧
        (e = RecErr.errSwapAlreadyCompleted ∨ e = RecErr.errCompleteSwapFailed)) ∧
      (newSwapStateFromOngoing m r claimedTopic swapID stage logs
          startBlock now putOk).2 = (completeSwapRecovery m r now putOk).2) ∧
    (¬(stage = .StageCompleted ∧ ∃ l, l ∈ logs ∧ l.topics.getD 0 0 = claimedTopic ∧
        l.removed = false ∧ l.topics.getD 1 0 = swapID) →
      ((heapGet m.heap r).status = .XMRLocked →
        newSwapStateFromOngoing m r claimedTopic swapID stage logs startBlock now putOk
          = (.ok ⟨startBlock, (heapGet m.heap r).offerID⟩, m)) ∧
      ((heapGet m.heap r).status ≠ .XMRLocked →
        newSwapStateFromOngoing m r claimedTopic swapID stage logs startBlock now putOk
          = (.error .errInvalidStageForRecovery, m))) := by
  cases stage with
  | StageInvalid => exact absurd rfl hstage
  | StagePending =>
    refine ⟨fun hcl => absurd hcl.1 (by simp), fun _ => ⟨fun hst => ?_, fun hst => ?_⟩⟩
    · simp [newSwapStateFromOngoing, checkIfAlreadyClaimed, hst]
    · simp [newSwapStateFromOngoing, checkIfAlreadyClaimed, hst]
  | StageReady =>
    refine ⟨fun hcl => absurd hcl.1 (by simp), fun _ => ⟨fun hst => ?_, fun hst => ?_⟩⟩
    · simp [newSwapStateFromOngoing, checkIfAlreadyClaimed, hst]
    · simp [newSwapStateFromOngoing, checkIfAlreadyClaimed, hst]
  | StageCompleted =>
    by_cases hc : (logs.any fun l =>
        l.topics.getD 0 0 == claimedTopic && !l.removed && checkSwapIDForUs l swapID)
        = true
    · have hstep : checkIfAlreadyClaimed claimedTopic swapID .StageCompleted logs
          = .ok true := by
        unfold checkIfAlreadyClaimed
        rw [hc]
      rcases hres : completeSwapRecovery m r now putOk with ⟨res, m1⟩
      cases res with
      | ok u =>
        refine ⟨fun _ => ⟨⟨.errSwapAlreadyCompleted, ?_, Or.inl rfl⟩, ?_⟩,
                fun hncl => absurd ⟨rfl, (claimed_log_iff logs claimedTopic swapID).mp hc⟩
                  hncl⟩
        · simp only [newSwapStateFromOngoing]
          rw [hstep, hres]
        · simp only [newSwapStateFromOngoing]
          rw [hstep, hres]
      | error u =>
        refine ⟨fun _ => ⟨⟨.errCompleteSwapFailed, ?_, Or.inr rfl⟩, ?_⟩,
                fun hncl => absurd ⟨rfl, (claimed_log_iff logs claimedTopic swapID).mp hc⟩
                  hncl⟩
        · simp only [newSwapStateFromOngoing]
          rw [hstep, hres]
        · simp only [newSwapStateFromOngoing]
          rw [hstep, hres]
    · have hc' : (logs.any fun l =>
          l.topics.getD 0 0 == claimedTopic && !l.removed && checkSwapIDForUs l swapID)
          = false := by
        revert hc
        cases logs.any fun l =>
          l.topics.getD 0 0 == claimedTopic && !l.removed && checkSwapIDForUs l swapID <;>
          simp
      have hstep : checkIfAlreadyClaimed claimedTopic swapID .StageCompleted logs
          = .ok false := by
        unfold checkIfAlreadyClaimed
        rw [hc']
      refine ⟨fun hcl => ?_, fun _ => ⟨fun hst => ?_, fun hst => ?_⟩⟩
      · exact absurd ((claimed_log_iff logs claimedTopic swapID).mpr hcl.2) hc
      · simp only [newSwapStateFromOngoing]
        rw [hstep, if_pos hst]
      · simp only [newSwapStateFromOngoing]
        rw [hstep, if_neg hst]

/-- Witness for `newSwapStateFromOngoing_spec`: the `mA` record has status
`XMRLocked` and the contract stage is `Pending`, so recovery resumes a state
machine from start block 5 without touching the manager state. -/
theorem newSwapStateFromOngoing_spec_witness :
    newSwapStateFromOngoing mA 0 10 20 .StagePending [] 5 0 true = (.ok ⟨5, 1⟩, mA) :=
  ((newSwapStateFromOngoing_spec mA 0 10 20 .StagePending [] 5 0 true
      (fun h => Stage.noConfusion h)).2
    (fun hcl => Stage.noConfusion hcl.1)).1 (by decide)

/-! ## External sender -/

/-- C6: the external sender's `NewSwap` rejects every ERC-20 token amount with
the unsupported error before placing anything on the outbound channel; for a
non-token amount, when no transaction hash arrives within the sign timeout it
fails with the sign-timeout error (after the one outbound send); and the sign
timeout in force is 2 minutes for a sender constructed for development, one
hour for mainnet or stagenet. -/
theorem ExternalSenderNewSwap_spec (env : Environment) (arrival : Option Nat) :
    (ExternalSenderNewSwap (NewExternalSender env initTxSenderPackage) true arrival
        = ⟨.error .errUnsupported, 0⟩) ∧
    ((∀ t, arrival = some t →
        (NewExternalSender env initTxSenderPackage).transactionTimeout ≤ t) →
      ExternalSenderNewSwap (NewExternalSender env initTxSenderPackage) false arrival
        = ⟨.error .errSignTimeout, 1⟩) ∧
    (env = .Development →
      (NewExternalSender env initTxSenderPackage).transactionTimeout = 120) ∧
    ((env = .Mainnet ∨ env = .Stagenet) →
      (NewExternalSender env initTxSenderPackage).transactionTimeout = 3600) := by
  refine ⟨rfl, ?_, ?_, ?_⟩
  · intro hlate
    cases arrival with
    | none => rfl
    | some t =>
      have hle := hlate t rfl
      simp [ExternalSenderNewSwap, hle]
  · rintro rfl
    rfl
  · rintro (rfl | rfl) <;> rfl

/-- Witness for `ExternalSenderNewSwap_spec`: a development sender whose
front-end never returns a hash times out, and a mainnet sender rejects a token
swap. -/
theorem ExternalSenderNewSwap_spec_witness :
    ExternalSenderNewSwap (NewExternalSender .Development initTxSenderPackage) false none
        = ⟨.error .errSignTimeout, 1⟩ ∧
    ExternalSenderNewSwap (NewExternalSender .Mainnet initTxSenderPackage) true none
        = ⟨.error .errUnsupported, 0⟩ :=
  ⟨(ExternalSenderNewSwap_spec .Development none).2.1 (fun _t ht => Option.noConfusion ht),
   (ExternalSenderNewSwap_spec .Mainnet none).1⟩

/-- C10: the sign timeout is package-level shared state, not per-instance —
every sender of the process reads the same value; constructing an
`ExternalSender` for `Mainnet` or `Stagenet` sets it to one hour for every
instance, earlier or later; constructing one for any other environment leaves
the current value unchanged, so instances created later for other environments
still see the one-hour value. -/
theorem transactionTimeout_package_shared (p : TxSenderPackage)
    (env otherEnv : Environment) :
    (∀ i j, senderSignTimeout p i = senderSignTimeout p j) ∧
    ((env = .Mainnet ∨ env = .Stagenet) →
      ∀ i, senderSignTimeout (NewExternalSender env p) i = 3600) ∧
    (env ≠ .Mainnet → env ≠ .Stagenet →
      (NewExternalSender env p).transactionTimeout = p.transactionTimeout) ∧
    (otherEnv ≠ .Mainnet → otherEnv ≠ .Stagenet →
      ∀ i, senderSignTimeout
        (NewExternalSender otherEnv (NewExternalSender .Mainnet p)) i = 3600) := by
  refine ⟨fun i j => rfl, ?_, ?_, ?_⟩
  · rintro (rfl | rfl) i <;> rfl
  · intro h1 h2
    cases env with
    | Mainnet => exact absurd rfl h1
    | Stagenet => exact absurd rfl h2
    | Development => rfl
  · intro h1 h2 i
    cases otherEnv with
    | Mainnet => exact absurd rfl h1
    | Stagenet => exact absurd rfl h2
    | Development => rfl

/-- Witness for `transactionTimeout_package_shared`: after a mainnet sender is
constructed, a development sender constructed later still waits one hour. -/
theorem transactionTimeout_package_shared_witness :
    senderSignTimeout
      (NewExternalSender .Development (NewExternalSender .Mainnet initTxSenderPackage))
      0 = 3600 :=
  (transactionTimeout_package_shared initTxSenderPackage .Mainnet .Development).2.2.2
    (fun h => Environment.noConfusion h) (fun h => Environment.noConfusion h) 0

end AtomicSwap
